import Mathlib

/-!
Verification of the raster post-processing pipeline of the katex-renderer
repository: the bounding-box detector `findBBox`, the tiler
`splitBufferToTiles`, the cache key `hashKey`, and the `/renderRaw` handler
of `src/server.js`.  Pixel buffers are embedded as flat `List Nat` byte
sequences; JS numbers stored in the scan state are embedded as `Int`.
-/

namespace KatexRenderer

/-- RGBA raster image as produced by the sharp rasterizer: a flat row-major
byte buffer together with the dimensions and channel count reported in
`raw.info` (`server.js:99`). -/
structure RasterImage where
  pixels : List Nat
  width : Nat
  height : Nat
  channels : Nat
deriving DecidableEq

/-- Rectangle as returned by `findBBox` (`server.js:46`) and consumed by
sharp `extract` (`server.js:105-106`).  Fields are JS numbers, embedded as
`Int` (the scan sentinels are negative). -/
structure BBox where
  left : Int
  top : Int
  width : Int
  height : Int
deriving DecidableEq

/-- Running extremes of the `findBBox` scan (`server.js:32`). -/
structure ScanState where
  minX : Int
  minY : Int
  maxX : Int
  maxY : Int
deriving DecidableEq

/-- The read `data[row + x*channels + 3]` (`server.js:36`); `none` models the
JS `undefined` produced by an out-of-range buffer read. -/
def alphaAt (data : List Nat) (width channels x y : Nat) : Option Nat :=
  data.get? (y * width * channels + x * channels + 3)

/-- The guard `alpha > alphaThreshold` (`server.js:37`); in JS the comparison
`undefined > t` is `false`. -/
def litB (data : List Nat) (width channels t x y : Nat) : Bool :=
  match alphaAt data width channels x y with
  | some a => decide (t < a)
  | none => false

/-- One iteration of the scan body (`server.js:36-42`). -/
def bboxStep (data : List Nat) (width channels t : Nat) (s : ScanState)
    (p : Nat × Nat) : ScanState :=
  if litB data width channels t p.1 p.2 then
    { minX := if (p.1 : Int) < s.minX then (p.1 : Int) else s.minX
      minY := if (p.2 : Int) < s.minY then (p.2 : Int) else s.minY
      maxX := if (p.1 : Int) > s.maxX then (p.1 : Int) else s.maxX
      maxY := if (p.2 : Int) > s.maxY then (p.2 : Int) else s.maxY }
  else s

/-- Row-major traversal order of the two nested loops (`server.js:33-35`):
for each `y < height`, each `x < width`. -/
def pixelList (width height : Nat) : List (Nat × Nat) :=
  (List.range height).flatMap (fun y => (List.range width).map (fun x => (x, y)))

/-- The whole scan of `findBBox` with its sentinel initial state
`minX=width, minY=height, maxX=-1, maxY=-1` (`server.js:32-44`). -/
def bboxScan (data : List Nat) (width height channels t : Nat) : ScanState :=
  (pixelList width height).foldl (bboxStep data width channels t)
    ⟨(width : Int), (height : Int), -1, -1⟩

/-- `findBBox` (`server.js:31-47`). -/
def findBBox (data : List Nat) (width height channels : Nat)
    (alphaThreshold : Nat := 1) : Option BBox :=
  if (bboxScan data width height channels alphaThreshold).maxX <
      (bboxScan data width height channels alphaThreshold).minX ∨
     (bboxScan data width height channels alphaThreshold).maxY <
      (bboxScan data width height channels alphaThreshold).minY then
    none
  else
    some ⟨(bboxScan data width height channels alphaThreshold).minX,
          (bboxScan data width height channels alphaThreshold).minY,
          (bboxScan data width height channels alphaThreshold).maxX -
            (bboxScan data width height channels alphaThreshold).minX + 1,
          (bboxScan data width height channels alphaThreshold).maxY -
            (bboxScan data width height channels alphaThreshold).minY + 1⟩

/-- Left fold of the running-minimum update `if (b < a) a = b`. -/
def foldlMin (m : Int) (xs : List Int) : Int :=
  xs.foldl (fun a b => if b < a then b else a) m

/-- Left fold of the running-maximum update `if (b > a) a = b`. -/
def foldlMax (m : Int) (xs : List Int) : Int :=
  xs.foldl (fun a b => if b > a then b else a) m

/-- X coordinates (in scan order) of the pixels passing the alpha test. -/
def litXs (data : List Nat) (width height channels t : Nat) : List Int :=
  ((pixelList width height).filter
    (fun p => litB data width channels t p.1 p.2)).map (fun p => (p.1 : Int))

/-- Y coordinates (in scan order) of the pixels passing the alpha test. -/
def litYs (data : List Nat) (width height channels t : Nat) : List Int :=
  ((pixelList width height).filter
    (fun p => litB data width channels t p.1 p.2)).map (fun p => (p.2 : Int))

/-- The loop of `splitBufferToTiles` (`server.js:156-161`):
`for (let y = 0; y < height; y += tileHeight)` slicing
`[y*bytesPerRow, (y + min(tileHeight, height-y))*bytesPerRow)`.  The JS loop
terminates only for `tileHeight >= 1`, and then runs at most `height`
iterations, so the fuel index (first `Nat` argument) set to `height` at the
top level is always sufficient; the theorems below carry that bound. -/
def tileLoop (buf : List Nat) (bytesPerRow height tileHeight : Nat) :
    Nat → Nat → List (List Nat)
  | 0, _ => []
  | fuel + 1, y =>
    if y < height then
      ((buf.drop (y * bytesPerRow)).take
          (bytesPerRow * min tileHeight (height - y))) ::
        tileLoop buf bytesPerRow height tileHeight fuel (y + tileHeight)
    else []

/-- `splitBufferToTiles` (`server.js:153-163`); the inlined tile loop of the
`renderRaw` handler (`server.js:117-122`) computes the same slices. -/
def splitBufferToTiles (rawBuffer : List Nat) (width height channels : Nat)
    (tileHeight : Nat := 8) : List (List Nat) :=
  tileLoop rawBuffer (width * channels) height tileHeight height 0

/-- Request body of `/renderRaw` with the destructuring defaults of
`server.js:52-61`; `none` models an absent (`undefined`) optional field. -/
structure RenderReq where
  latex : String
  fontSize : Nat := 32
  scale : Nat := 4
  margin : Nat := 2
  tileHeight : Nat := 128
  scaleTo : Bool := false
  targetWidth : Option Nat := none
  targetHeight : Option Nat := none
deriving DecidableEq

/-- JS truthiness of an optional numeric field: `undefined` and `0` are
falsy (`targetWidth ? ... : undefined` at `server.js:90-91`). -/
def optTruthy : Option Nat → Bool
  | none => false
  | some n => decide (n ≠ 0)

/-- `Array.prototype.join` renders `undefined` as the empty string and a
number as its decimal representation. -/
def optToStr : Option Nat → String
  | none => ""
  | some n => toString n

/-- The digest input of `hashKey(latex, fontSize, scale, margin, tileHeight,
targetWidth, targetHeight)` (`server.js:27-29`, call site `server.js:65`):
`parts.join(":")`.  The md5 digest itself is an external deterministic
function of this string, so keys are identified with their digest inputs;
nothing below assumes distinct inputs get distinct digests. -/
def hashKey (r : RenderReq) : String :=
  String.intercalate ":"
    [r.latex, toString r.fontSize, toString r.scale, toString r.margin,
     toString r.tileHeight, optToStr r.targetWidth, optToStr r.targetHeight]

/-- Payload of a successful render (`server.js:124-131`); tile blobs are
kept as raw byte lists (the base64 encoding at `server.js:121` is an
injective transport encoding). -/
structure TilePayload where
  tiles : List (List Nat)
  width : Nat
  height : Nat
  channels : Nat
  tileHeight : Nat
  crop : BBox
deriving DecidableEq

/-- Response of the handler: the 400 error (`server.js:63`), the 500 error
of the catch block (`server.js:135-138`), or the JSON payload. -/
inductive Response where
  | badRequest : String → Response
  | serverError : String → Response
  | ok : TilePayload → Response
deriving DecidableEq

/-- One RGBA sample of a source image at integer coordinates. -/
def samplePixel (img : RasterImage) (sx sy : Nat) : List Nat :=
  (List.range img.channels).map
    (fun k => img.pixels.getD ((sy * img.width + sx) * img.channels + k) 0)

/-- Modelled from the spec: the Resizer contract of spec section 4.3 backing
the external sharp `resize` call of `server.js:89-93` (sharp is not part of
this repository).  Both targets given: output exactly `W x H` under the
"contain" policy — aspect-preserving content, centered, fully transparent
padding; exactly one target given: proportional resize; the resampling
kernel is abstracted as integer nearest-sampling. -/
def resizeContain (img : RasterImage) (ow oh : Option Nat) : RasterImage :=
  match ow, oh with
  | none, none => img
  | some w2, some h2 =>
    if img.width = 0 ∨ img.height = 0 then
      ⟨(List.range (w2 * h2)).flatMap (fun _ => [0, 0, 0, 0]), w2, h2, 4⟩
    else
      let cw := if w2 * img.height ≤ h2 * img.width then w2
        else img.width * h2 / img.height
      let ch := if w2 * img.height ≤ h2 * img.width then
        img.height * w2 / img.width
        else h2
      let ox := (w2 - cw) / 2
      let oy := (h2 - ch) / 2
      ⟨(List.range h2).flatMap (fun y => (List.range w2).flatMap (fun x =>
          if ox ≤ x ∧ x < ox + cw ∧ oy ≤ y ∧ y < oy + ch ∧ 0 < cw ∧ 0 < ch
          then
            samplePixel img ((x - ox) * img.width / cw)
              ((y - oy) * img.height / ch)
          else [0, 0, 0, 0])), w2, h2, 4⟩
  | some w2, none =>
    if img.width = 0 then ⟨[], w2, 0, 4⟩
    else
      let h2 := max 1 (img.height * w2 / img.width)
      ⟨(List.range h2).flatMap (fun y => (List.range w2).flatMap (fun x =>
          samplePixel img (x * img.width / w2) (y * img.height / h2))),
       w2, h2, 4⟩
  | none, some h2 =>
    if img.height = 0 then ⟨[], 0, h2, 4⟩
    else
      let w2 := max 1 (img.width * h2 / img.height)
      ⟨(List.range h2).flatMap (fun y => (List.range w2).flatMap (fun x =>
          samplePixel img (x * img.width / w2) (y * img.height / h2))),
       w2, h2, 4⟩

/-- Modelled from the spec: sharp `extract(bbox)` (`server.js:105-106` —
sharp is not part of this repository); per spec section 4.2 the extraction
step copies exactly the requested rectangle. -/
def extractRect (img : RasterImage) (b : BBox) : RasterImage :=
  ⟨(List.range b.height.toNat).flatMap (fun dy =>
      (List.range b.width.toNat).flatMap (fun dx =>
        (List.range img.channels).map (fun k =>
          img.pixels.getD
            (((b.top.toNat + dy) * img.width + (b.left.toNat + dx)) *
              img.channels + k) 0))),
   b.width.toNat, b.height.toNat, img.channels⟩

/-- The bounding box with full-image fallback of `server.js:100-102`
(`findBBox(...) || { left: 0, top: 0, width, height }`, default alpha
threshold 1). -/
def handlerBBox (img : RasterImage) : BBox :=
  (findBBox img.pixels img.width img.height img.channels).getD
    ⟨0, 0, (img.width : Int), (img.height : Int)⟩

/-- Steps 4-7 of the handler (`server.js:88-131`): resize when
`scaleTo && (targetHeight || targetWidth)` with targets multiplied by
`scale` (`Math.round(target * scale)` is exact on integers), then tight
bounding box with full-image fallback, crop, tiling with `channels = 4`,
and payload assembly. -/
def renderPipeline (img0 : RasterImage) (req : RenderReq) : TilePayload :=
  let img1 :=
    if req.scaleTo && (optTruthy req.targetHeight || optTruthy req.targetWidth)
    then
      resizeContain img0
        (if optTruthy req.targetWidth then some (req.targetWidth.getD 0 * req.scale)
         else none)
        (if optTruthy req.targetHeight then some (req.targetHeight.getD 0 * req.scale)
         else none)
    else img0
  let bbox := handlerBBox img1
  let cropped := extractRect img1 bbox
  ⟨splitBufferToTiles cropped.pixels cropped.width cropped.height 4
      req.tileHeight,
   cropped.width, cropped.height, 4, req.tileHeight, bbox⟩

/-- The `/renderRaw` handler (`server.js:50-139`) over an abstract
rasterizer `raster` standing for steps 1-3 (MathJax conversion plus sharp
SVG rasterization, a deterministic function of `latex`, `fontSize`,
`scale`; `Except.error` models a thrown exception reaching the catch block
at `server.js:135-138`).  Returns the response, the updated cache, and how
many times this request invoked the rasterizer. -/
def renderRaw (raster : String → Nat → Nat → Except String RasterImage)
    (cache : List (String × TilePayload)) (req : RenderReq) :
    Response × List (String × TilePayload) × Nat :=
  if req.latex = "" then (Response.badRequest "Missing latex", cache, 0)
  else
    match List.lookup (hashKey req) cache with
    | some payload => (Response.ok payload, cache, 0)
    | none =>
      match raster req.latex req.fontSize req.scale with
      | Except.error e => (Response.serverError e, cache, 1)
      | Except.ok img0 =>
        (Response.ok (renderPipeline img0 req),
         (hashKey req, renderPipeline img0 req) :: cache, 1)

/-- A `1x1` fully opaque white RGBA image. -/
def imgOne : RasterImage := ⟨[255, 255, 255, 255], 1, 1, 4⟩

/-- Rasterizer stub producing `imgOne` for every input. -/
def rasterOne : String → Nat → Nat → Except String RasterImage :=
  fun _ _ _ => Except.ok imgOne

/-- Rasterizer stub whose conversion always throws. -/
def rasterFail : String → Nat → Nat → Except String RasterImage :=
  fun _ _ _ => Except.error "boom"

/-- The spec section 8 concrete scenario: a `4x4` RGBA buffer, fully
transparent except opaque white pixels at `(1,1)` and `(2,2)`. -/
def data44 : List Nat :=
  [0, 0, 0, 0, 0, 0, 0, 0, 0, 0, 0, 0, 0, 0, 0, 0,
   0, 0, 0, 0, 255, 255, 255, 255, 0, 0, 0, 0, 0, 0, 0, 0,
   0, 0, 0, 0, 0, 0, 0, 0, 255, 255, 255, 255, 0, 0, 0, 0,
   0, 0, 0, 0, 0, 0, 0, 0, 0, 0, 0, 0, 0, 0, 0, 0]

/-- `data44` as a raster image. -/
def img44 : RasterImage := ⟨data44, 4, 4, 4⟩

/-- Rasterizer stub producing `img44` for every input. -/
def raster44 : String → Nat → Nat → Except String RasterImage :=
  fun _ _ _ => Except.ok img44

lemma foldlMin_cons (m x : Int) (xs : List Int) :
    foldlMin m (x :: xs) = foldlMin (if x < m then x else m) xs := rfl

lemma foldlMax_cons (m x : Int) (xs : List Int) :
    foldlMax m (x :: xs) = foldlMax (if x > m then x else m) xs := rfl

lemma foldlMin_le_init (xs : List Int) : ∀ m : Int, foldlMin m xs ≤ m := by
  induction xs with
  | nil => intro m; exact le_refl m
  | cons x xs ih =>
    intro m
    rw [foldlMin_cons]
    refine le_trans (ih _) ?_
    split <;> omega

lemma foldlMax_init_le (xs : List Int) : ∀ m : Int, m ≤ foldlMax m xs := by
  induction xs with
  | nil => intro m; exact le_refl m
  | cons x xs ih =>
    intro m
    rw [foldlMax_cons]
    refine le_trans ?_ (ih _)
    split <;> omega

lemma foldlMin_le_mem (xs : List Int) :
    ∀ m a : Int, a ∈ xs → foldlMin m xs ≤ a := by
  induction xs with
  | nil => intro m a ha; simp at ha
  | cons x xs ih =>
    intro m a ha
    rw [foldlMin_cons]
    rcases List.mem_cons.mp ha with h | h
    · subst h
      refine le_trans (foldlMin_le_init xs _) ?_
      split <;> omega
    · exact ih _ a h

lemma foldlMax_mem_le (xs : List Int) :
    ∀ m a : Int, a ∈ xs → a ≤ foldlMax m xs := by
  induction xs with
  | nil => intro m a ha; simp at ha
  | cons x xs ih =>
    intro m a ha
    rw [foldlMax_cons]
    rcases List.mem_cons.mp ha with h | h
    · subst h
      refine le_trans ?_ (foldlMax_init_le xs _)
      split <;> omega
    · exact ih _ a h

lemma foldlMin_eq_init_or_mem (xs : List Int) :
    ∀ m : Int, foldlMin m xs = m ∨ foldlMin m xs ∈ xs := by
  induction xs with
  | nil => intro m; exact Or.inl rfl
  | cons x xs ih =>
    intro m
    rw [foldlMin_cons]
    rcases ih (if x < m then x else m) with h | h
    · rw [h]
      by_cases hxm : x < m
      · rw [if_pos hxm]; exact Or.inr (List.mem_cons_self x xs)
      · rw [if_neg hxm]; exact Or.inl rfl
    · exact Or.inr (List.mem_cons_of_mem x h)

lemma foldlMax_eq_init_or_mem (xs : List Int) :
    ∀ m : Int, foldlMax m xs = m ∨ foldlMax m xs ∈ xs := by
  induction xs with
  | nil => intro m; exact Or.inl rfl
  | cons x xs ih =>
    intro m
    rw [foldlMax_cons]
    rcases ih (if x > m then x else m) with h | h
    · rw [h]
      by_cases hxm : x > m
      · rw [if_pos hxm]; exact Or.inr (List.mem_cons_self x xs)
      · rw [if_neg hxm]; exact Or.inl rfl
    · exact Or.inr (List.mem_cons_of_mem x h)

/-- The scan state decomposes componentwise into min/max folds over the
coordinates of the pixels passing the alpha test. -/
lemma foldl_bboxStep_decomp (data : List Nat) (w c t : Nat) :
    ∀ (ps : List (Nat × Nat)) (s : ScanState),
      ps.foldl (bboxStep data w c t) s =
        ⟨foldlMin s.minX ((ps.filter (fun p => litB data w c t p.1 p.2)).map
            (fun p => (p.1 : Int))),
         foldlMin s.minY ((ps.filter (fun p => litB data w c t p.1 p.2)).map
            (fun p => (p.2 : Int))),
         foldlMax s.maxX ((ps.filter (fun p => litB data w c t p.1 p.2)).map
            (fun p => (p.1 : Int))),
         foldlMax s.maxY ((ps.filter (fun p => litB data w c t p.1 p.2)).map
            (fun p => (p.2 : Int)))⟩ := by
  intro ps
  induction ps with
  | nil => intro s; rfl
  | cons p ps ih =>
    intro s
    by_cases hl : litB data w c t p.1 p.2
    · rw [List.foldl_cons, ih (bboxStep data w c t s p)]
      simp only [List.filter_cons, hl, if_true, List.map_cons, foldlMin_cons,
        foldlMax_cons, bboxStep]
    · rw [List.foldl_cons, ih (bboxStep data w c t s p)]
      simp only [List.filter_cons, hl, Bool.false_eq_true, if_false, bboxStep]

lemma bboxScan_eq (data : List Nat) (w h c t : Nat) :
    bboxScan data w h c t =
      ⟨foldlMin (w : Int) (litXs data w h c t),
       foldlMin (h : Int) (litYs data w h c t),
       foldlMax (-1) (litXs data w h c t),
       foldlMax (-1) (litYs data w h c t)⟩ := by
  unfold bboxScan litXs litYs
  exact foldl_bboxStep_decomp data w c t (pixelList w h) _

lemma mem_pixelList {w h : Nat} {p : Nat × Nat} :
    p ∈ pixelList w h ↔ p.1 < w ∧ p.2 < h := by
  cases p with
  | mk x y =>
    simp only [pixelList, List.mem_flatMap, List.mem_map, List.mem_range]
    constructor
    · rintro ⟨y', hy', x', hx', heq⟩
      cases heq
      exact ⟨hx', hy'⟩
    · rintro ⟨hx, hy⟩
      exact ⟨y, hy, x, hx, rfl⟩

lemma mem_litXs {data : List Nat} {w h c t : Nat} {a : Int} :
    a ∈ litXs data w h c t ↔
      ∃ x y, x < w ∧ y < h ∧ litB data w c t x y = true ∧ (x : Int) = a := by
  simp only [litXs, List.mem_map, List.mem_filter]
  constructor
  · rintro ⟨p, ⟨hp, hl⟩, rfl⟩
    exact ⟨p.1, p.2, (mem_pixelList.mp hp).1, (mem_pixelList.mp hp).2, hl, rfl⟩
  · rintro ⟨x, y, hx, hy, hl, rfl⟩
    exact ⟨(x, y), ⟨mem_pixelList.mpr ⟨hx, hy⟩, hl⟩, rfl⟩

lemma mem_litYs {data : List Nat} {w h c t : Nat} {a : Int} :
    a ∈ litYs data w h c t ↔
      ∃ x y, x < w ∧ y < h ∧ litB data w c t x y = true ∧ (y : Int) = a := by
  simp only [litYs, List.mem_map, List.mem_filter]
  constructor
  · rintro ⟨p, ⟨hp, hl⟩, rfl⟩
    exact ⟨p.1, p.2, (mem_pixelList.mp hp).1, (mem_pixelList.mp hp).2, hl, rfl⟩
  · rintro ⟨x, y, hx, hy, hl, rfl⟩
    exact ⟨(x, y), ⟨mem_pixelList.mpr ⟨hx, hy⟩, hl⟩, rfl⟩

lemma litXs_eq_nil_iff {data : List Nat} {w h c t : Nat} :
    litXs data w h c t = [] ↔
      ∀ x, x < w → ∀ y, y < h → litB data w c t x y = false := by
  constructor
  · intro hnil x hx y hy
    by_contra hne
    have hl : litB data w c t x y = true := by
      cases hcase : litB data w c t x y
      · exact absurd hcase hne
      · rfl
    have : (x : Int) ∈ litXs data w h c t :=
      mem_litXs.mpr ⟨x, y, hx, hy, hl, rfl⟩
    rw [hnil] at this
    simp at this
  · intro hall
    rw [List.eq_nil_iff_forall_not_mem]
    intro a ha
    rcases mem_litXs.mp ha with ⟨x, y, hx, hy, hl, rfl⟩
    rw [hall x hx y hy] at hl
    exact absurd hl (by simp)

lemma findBBox_eq_none_of_cond {data : List Nat} {w h c t : Nat}
    (hcond : (bboxScan data w h c t).maxX < (bboxScan data w h c t).minX ∨
      (bboxScan data w h c t).maxY < (bboxScan data w h c t).minY) :
    findBBox data w h c t = none := by
  unfold findBBox
  rw [if_pos hcond]

lemma findBBox_cond_of_eq_none {data : List Nat} {w h c t : Nat}
    (hnone : findBBox data w h c t = none) :
    (bboxScan data w h c t).maxX < (bboxScan data w h c t).minX ∨
      (bboxScan data w h c t).maxY < (bboxScan data w h c t).minY := by
  by_contra hcond
  unfold findBBox at hnone
  rw [if_neg hcond] at hnone
  exact Option.some_ne_none _ hnone

lemma findBBox_none_iff (data : List Nat) (w h c t : Nat) :
    findBBox data w h c t = none ↔
      ∀ x, x < w → ∀ y, y < h → litB data w c t x y = false := by
  constructor
  · intro hnone
    rw [← litXs_eq_nil_iff]
    by_contra hne
    rcases List.exists_mem_of_ne_nil _ hne with ⟨a, ha⟩
    rcases mem_litXs.mp ha with ⟨x, y, hx, hy, hl, rfl⟩
    have hay : (y : Int) ∈ litYs data w h c t :=
      mem_litYs.mpr ⟨x, y, hx, hy, hl, rfl⟩
    have hcond := findBBox_cond_of_eq_none hnone
    rw [bboxScan_eq] at hcond
    rcases hcond with hc | hc
    · have h1 := foldlMin_le_mem _ (w : Int) _ ha
      have h2 := foldlMax_mem_le _ (-1) _ ha
      simp only at hc
      omega
    · have h1 := foldlMin_le_mem _ (h : Int) _ hay
      have h2 := foldlMax_mem_le _ (-1) _ hay
      simp only at hc
      omega
  · intro hall
    have hx : litXs data w h c t = [] := litXs_eq_nil_iff.mpr hall
    have hy : litYs data w h c t = [] := by
      rw [List.eq_nil_iff_forall_not_mem]
      intro a ha
      rcases mem_litYs.mp ha with ⟨x, y, hxw, hyh, hl, rfl⟩
      rw [hall x hxw y hyh] at hl
      exact absurd hl (by simp)
    refine findBBox_eq_none_of_cond ?_
    rw [bboxScan_eq, hx, hy]
    left
    show foldlMax (-1) [] < foldlMin (w : Int) []
    show (-1 : Int) < (w : Int)
    have : (0 : Int) ≤ (w : Int) := Int.natCast_nonneg w
    omega

lemma findBBox_some_fields {data : List Nat} {w h c t : Nat} {b : BBox}
    (hb : findBBox data w h c t = some b) :
    b.left = foldlMin (w : Int) (litXs data w h c t) ∧
    b.top = foldlMin (h : Int) (litYs data w h c t) ∧
    b.left + b.width - 1 = foldlMax (-1) (litXs data w h c t) ∧
    b.top + b.height - 1 = foldlMax (-1) (litYs data w h c t) := by
  unfold findBBox at hb
  split at hb
  · exact absurd hb (Option.some_ne_none _).symm
  · have hb' := Option.some.inj hb
    rw [bboxScan_eq] at hb'
    subst hb'
    refine ⟨rfl, rfl, ?_, ?_⟩ <;> simp only <;> omega

lemma findBBox_some_bounds {data : List Nat} {w h c t : Nat} {b : BBox}
    (hb : findBBox data w h c t = some b) {x y : Nat} (hx : x < w) (hy : y < h)
    (hl : litB data w c t x y = true) :
    b.left ≤ (x : Int) ∧ (x : Int) ≤ b.left + b.width - 1 ∧
    b.top ≤ (y : Int) ∧ (y : Int) ≤ b.top + b.height - 1 := by
  rcases findBBox_some_fields hb with ⟨h1, h2, h3, h4⟩
  have hax : (x : Int) ∈ litXs data w h c t := mem_litXs.mpr ⟨x, y, hx, hy, hl, rfl⟩
  have hay : (y : Int) ∈ litYs data w h c t := mem_litYs.mpr ⟨x, y, hx, hy, hl, rfl⟩
  have i1 := foldlMin_le_mem _ (w : Int) _ hax
  have i2 := foldlMax_mem_le _ (-1) _ hax
  have i3 := foldlMin_le_mem _ (h : Int) _ hay
  have i4 := foldlMax_mem_le _ (-1) _ hay
  refine ⟨?_, ?_, ?_, ?_⟩ <;> omega

lemma findBBox_some_nonempty {data : List Nat} {w h c t : Nat} {b : BBox}
    (hb : findBBox data w h c t = some b) :
    ∃ x y, x < w ∧ y < h ∧ litB data w c t x y = true := by
  by_contra hno
  push_neg at hno
  have hnone : findBBox data w h c t = none := by
    rw [findBBox_none_iff]
    intro x hx y hy
    cases hcase : litB data w c t x y
    · rfl
    · exact absurd hcase (hno x y hx hy)
  rw [hnone] at hb
  exact Option.noConfusion hb

lemma findBBox_some_left_witness {data : List Nat} {w h c t : Nat} {b : BBox}
    (hb : findBBox data w h c t = some b) :
    ∃ x y, x < w ∧ y < h ∧ litB data w c t x y = true ∧ (x : Int) = b.left := by
  rcases findBBox_some_fields hb with ⟨h1, -, -, -⟩
  rcases findBBox_some_nonempty hb with ⟨x0, y0, hx0, hy0, hl0⟩
  have hax0 : (x0 : Int) ∈ litXs data w h c t :=
    mem_litXs.mpr ⟨x0, y0, hx0, hy0, hl0, rfl⟩
  rcases foldlMin_eq_init_or_mem (litXs data w h c t) (w : Int) with hc | hc
  · exfalso
    have hle := foldlMin_le_mem _ (w : Int) _ hax0
    rw [hc] at hle
    omega
  · rcases mem_litXs.mp hc with ⟨x, y, hx, hy, hl, hxa⟩
    exact ⟨x, y, hx, hy, hl, by rw [h1, hxa]⟩

lemma findBBox_some_right_witness {data : List Nat} {w h c t : Nat} {b : BBox}
    (hb : findBBox data w h c t = some b) :
    ∃ x y, x < w ∧ y < h ∧ litB data w c t x y = true ∧
      (x : Int) = b.left + b.width - 1 := by
  rcases findBBox_some_fields hb with ⟨-, -, h3, -⟩
  rcases findBBox_some_nonempty hb with ⟨x0, y0, hx0, hy0, hl0⟩
  have hax0 : (x0 : Int) ∈ litXs data w h c t :=
    mem_litXs.mpr ⟨x0, y0, hx0, hy0, hl0, rfl⟩
  rcases foldlMax_eq_init_or_mem (litXs data w h c t) (-1) with hc | hc
  · exfalso
    have hle := foldlMax_mem_le _ (-1) _ hax0
    rw [hc] at hle
    omega
  · rcases mem_litXs.mp hc with ⟨x, y, hx, hy, hl, hxa⟩
    exact ⟨x, y, hx, hy, hl, by rw [h3, hxa]⟩

lemma findBBox_some_top_witness {data : List Nat} {w h c t : Nat} {b : BBox}
    (hb : findBBox data w h c t = some b) :
    ∃ x y, x < w ∧ y < h ∧ litB data w c t x y = true ∧ (y : Int) = b.top := by
  rcases findBBox_some_fields hb with ⟨-, h2, -, -⟩
  rcases findBBox_some_nonempty hb with ⟨x0, y0, hx0, hy0, hl0⟩
  have hay0 : (y0 : Int) ∈ litYs data w h c t :=
    mem_litYs.mpr ⟨x0, y0, hx0, hy0, hl0, rfl⟩
  rcases foldlMin_eq_init_or_mem (litYs data w h c t) (h : Int) with hc | hc
  · exfalso
    have hle := foldlMin_le_mem _ (h : Int) _ hay0
    rw [hc] at hle
    omega
  · rcases mem_litYs.mp hc with ⟨x, y, hx, hy, hl, hya⟩
    exact ⟨x, y, hx, hy, hl, by rw [h2, hya]⟩

lemma findBBox_some_bottom_witness {data : List Nat} {w h c t : Nat} {b : BBox}
    (hb : findBBox data w h c t = some b) :
    ∃ x y, x < w ∧ y < h ∧ litB data w c t x y = true ∧
      (y : Int) = b.top + b.height - 1 := by
  rcases findBBox_some_fields hb with ⟨-, -, -, h4⟩
  rcases findBBox_some_nonempty hb with ⟨x0, y0, hx0, hy0, hl0⟩
  have hay0 : (y0 : Int) ∈ litYs data w h c t :=
    mem_litYs.mpr ⟨x0, y0, hx0, hy0, hl0, rfl⟩
  rcases foldlMax_eq_init_or_mem (litYs data w h c t) (-1) with hc | hc
  · exfalso
    have hle := foldlMax_mem_le _ (-1) _ hay0
    rw [hc] at hle
    omega
  · rcases mem_litYs.mp hc with ⟨x, y, hx, hy, hl, hya⟩
    exact ⟨x, y, hx, hy, hl, by rw [h4, hya]⟩

lemma findBBox_isSome_of_lit {data : List Nat} {w h c t : Nat} {x y : Nat}
    (hx : x < w) (hy : y < h) (hl : litB data w c t x y = true) :
    ∃ b, findBBox data w h c t = some b := by
  cases hcase : findBBox data w h c t with
  | none =>
    rw [findBBox_none_iff] at hcase
    rw [hcase x hx y hy] at hl
    exact absurd hl (by simp)
  | some b => exact ⟨b, rfl⟩

lemma litB_iff {data : List Nat} {w c t x y : Nat} :
    litB data w c t x y = true ↔
      ∃ a, alphaAt data w c x y = some a ∧ t < a := by
  unfold litB
  cases halpha : alphaAt data w c x y with
  | none => simp
  | some a => simp

lemma litB_mono {data : List Nat} {w c t1 t2 x y : Nat} (ht : t1 ≤ t2)
    (hl : litB data w c t2 x y = true) : litB data w c t1 x y = true := by
  rw [litB_iff] at hl ⊢
  obtain ⟨a, ha, hta⟩ := hl
  exact ⟨a, ha, lt_of_le_of_lt ht hta⟩

/-- C2: `findBBox` returns `none` exactly when no pixel has alpha strictly
above the threshold; otherwise the returned box is the inclusive min/max
rectangle of the matching pixels (its edges are attained by matching pixels
and bound all of them).  In particular an image whose only matching pixel is
`(x0, y0)` yields the box `{left := x0, top := y0, width := 1, height := 1}`. -/
theorem findBBox_correct (data : List Nat) (w h c t : Nat) :
    (findBBox data w h c t = none ↔
      ∀ x, x < w → ∀ y, y < h → litB data w c t x y = false)
    ∧ (∀ b, findBBox data w h c t = some b →
        (∀ x y, x < w → y < h → litB data w c t x y = true →
          b.left ≤ (x : Int) ∧ (x : Int) ≤ b.left + b.width - 1 ∧
          b.top ≤ (y : Int) ∧ (y : Int) ≤ b.top + b.height - 1)
        ∧ (∃ x y, x < w ∧ y < h ∧ litB data w c t x y = true ∧
            (x : Int) = b.left)
        ∧ (∃ x y, x < w ∧ y < h ∧ litB data w c t x y = true ∧
            (x : Int) = b.left + b.width - 1)
        ∧ (∃ x y, x < w ∧ y < h ∧ litB data w c t x y = true ∧
            (y : Int) = b.top)
        ∧ (∃ x y, x < w ∧ y < h ∧ litB data w c t x y = true ∧
            (y : Int) = b.top + b.height - 1))
    ∧ (∀ x0 y0, x0 < w → y0 < h →
        (∀ x, x < w → ∀ y, y < h →
          (litB data w c t x y = true ↔ (x = x0 ∧ y = y0))) →
        findBBox data w h c t = some ⟨(x0 : Int), (y0 : Int), 1, 1⟩) := by
  refine ⟨findBBox_none_iff data w h c t, ?_, ?_⟩
  · intro b hb
    exact ⟨fun x y hx hy hl => findBBox_some_bounds hb hx hy hl,
      findBBox_some_left_witness hb, findBBox_some_right_witness hb,
      findBBox_some_top_witness hb, findBBox_some_bottom_witness hb⟩
  · intro x0 y0 hx0 hy0 huniq
    have hl0 : litB data w c t x0 y0 = true := (huniq x0 hx0 y0 hy0).mpr ⟨rfl, rfl⟩
    obtain ⟨b, hb⟩ := findBBox_isSome_of_lit hx0 hy0 hl0
    obtain ⟨xl, yl, hxl, hyl, hll, hel⟩ := findBBox_some_left_witness hb
    obtain ⟨xr, yr, hxr, hyr, hlr, her⟩ := findBBox_some_right_witness hb
    obtain ⟨xt, yt, hxt, hyt, hlt, het⟩ := findBBox_some_top_witness hb
    obtain ⟨xb, yb, hxb, hyb, hlb, heb⟩ := findBBox_some_bottom_witness hb
    obtain ⟨hxl0, -⟩ := (huniq xl hxl yl hyl).mp hll
    obtain ⟨hxr0, -⟩ := (huniq xr hxr yr hyr).mp hlr
    obtain ⟨-, hyt0⟩ := (huniq xt hxt yt hyt).mp hlt
    obtain ⟨-, hyb0⟩ := (huniq xb hxb yb hyb).mp hlb
    rw [hxl0] at hel
    rw [hxr0] at her
    rw [hyt0] at het
    rw [hyb0] at heb
    rw [hb]
    obtain ⟨l, tp, wd, hgt⟩ := b
    dsimp only at hel her het heb
    simp only [Option.some.injEq, BBox.mk.injEq]
    refine ⟨?_, ?_, ?_, ?_⟩ <;> omega

/-- Witness for `findBBox_correct`: the fully transparent `1x1` RGBA image
is reported as having no bounding box. -/
theorem findBBox_correct_witness : findBBox [0, 0, 0, 0] 1 1 4 1 = none :=
  (findBBox_correct [0, 0, 0, 0] 1 1 4 1).1.mpr (by decide)

/-- C8: raising the alpha threshold shrinks the bounding box: whatever box
the scan reports at threshold `t2 > t1` is contained in the box reported at
threshold `t1`, and an empty result at `t1` forces an empty result at `t2`. -/
theorem findBBox_threshold_monotone (data : List Nat) (w h c t1 t2 : Nat)
    (ht : t1 < t2) :
    (findBBox data w h c t1 = none → findBBox data w h c t2 = none)
    ∧ (∀ b2, findBBox data w h c t2 = some b2 →
        ∃ b1, findBBox data w h c t1 = some b1 ∧
          b1.left ≤ b2.left ∧ b1.top ≤ b2.top ∧
          b2.left + b2.width ≤ b1.left + b1.width ∧
          b2.top + b2.height ≤ b1.top + b1.height) := by
  constructor
  · intro hnone
    rw [findBBox_none_iff] at hnone ⊢
    intro x hx y hy
    cases hcase : litB data w c t2 x y
    · rfl
    · have := litB_mono ht.le hcase
      rw [hnone x hx y hy] at this
      exact absurd this (by simp)
  · intro b2 hb2
    obtain ⟨x0, y0, hx0, hy0, hl0⟩ := findBBox_some_nonempty hb2
    obtain ⟨b1, hb1⟩ := findBBox_isSome_of_lit hx0 hy0 (litB_mono ht.le hl0)
    obtain ⟨xl, yl, hxl, hyl, hll, hel⟩ := findBBox_some_left_witness hb2
    obtain ⟨xr, yr, hxr, hyr, hlr, her⟩ := findBBox_some_right_witness hb2
    obtain ⟨xt, yt, hxt, hyt, hlt, het⟩ := findBBox_some_top_witness hb2
    obtain ⟨xb, yb, hxb, hyb, hlb, heb⟩ := findBBox_some_bottom_witness hb2
    obtain ⟨bl1, -, -, -⟩ := findBBox_some_bounds hb1 hxl hyl (litB_mono ht.le hll)
    obtain ⟨-, br1, -, -⟩ := findBBox_some_bounds hb1 hxr hyr (litB_mono ht.le hlr)
    obtain ⟨-, -, bt1, -⟩ := findBBox_some_bounds hb1 hxt hyt (litB_mono ht.le hlt)
    obtain ⟨-, -, -, bb1⟩ := findBBox_some_bounds hb1 hxb hyb (litB_mono ht.le hlb)
    exact ⟨b1, hb1, by omega, by omega, by omega, by omega⟩

/-- Witness for `findBBox_threshold_monotone`: on the fully transparent `1x1`
image an empty result at threshold `1` propagates to threshold `2`. -/
theorem findBBox_threshold_monotone_witness :
    findBBox [0, 0, 0, 0] 1 1 4 2 = none :=
  (findBBox_threshold_monotone [0, 0, 0, 0] 1 1 4 1 2 (by decide)).1 (by decide)

lemma tileLoop_succ (buf : List Nat) (bpr h th fuel y : Nat) :
    tileLoop buf bpr h th (fuel + 1) y =
      if y < h then
        ((buf.drop (y * bpr)).take (bpr * min th (h - y))) ::
          tileLoop buf bpr h th fuel (y + th)
      else [] := rfl

lemma tileLoop_of_le (buf : List Nat) (bpr h th fuel y : Nat) (hy : h ≤ y) :
    tileLoop buf bpr h th fuel y = [] := by
  cases fuel with
  | zero => rfl
  | succ fuel => rw [tileLoop_succ, if_neg (by omega)]

lemma tileLoop_flatten (buf : List Nat) (bpr h th : Nat) (hth : 0 < th)
    (hlen : buf.length = h * bpr) :
    ∀ fuel y, h - y ≤ fuel * th →
      (tileLoop buf bpr h th fuel y).flatten =
        (buf.drop (y * bpr)).take ((h - y) * bpr) := by
  intro fuel
  induction fuel with
  | zero =>
    intro y hy
    have h0 : h - y = 0 := by omega
    rw [h0]
    simp [tileLoop]
  | succ fuel ih =>
    intro y hy
    by_cases hyh : y < h
    · rw [tileLoop_succ, if_pos hyh, List.flatten_cons]
      by_cases hcase : h - y ≤ th
      · have hrest : tileLoop buf bpr h th fuel (y + th) = [] :=
          tileLoop_of_le buf bpr h th fuel (y + th) (by omega)
        rw [hrest]
        have hmin : min th (h - y) = h - y := min_eq_right hcase
        rw [hmin, Nat.mul_comm bpr (h - y)]
        simp
      · push_neg at hcase
        have hmin : min th (h - y) = th := min_eq_left (by omega)
        have hmul : (fuel + 1) * th = fuel * th + th := Nat.succ_mul fuel th
        rw [hmin, ih (y + th) (by omega)]
        have harith : (h - y) * bpr = bpr * th + (h - (y + th)) * bpr := by
          have hsplit : h - y = th + (h - (y + th)) := by omega
          rw [hsplit, Nat.add_mul, Nat.mul_comm th bpr]
        rw [harith, List.take_add]
        congr 1
        rw [List.drop_drop]
        congr 2
        ring
    · rw [tileLoop_of_le buf bpr h th (fuel + 1) y (by omega)]
      have h0 : h - y = 0 := by omega
      rw [h0]
      simp

lemma tileLoop_getElem?_length (buf : List Nat) (bpr h th : Nat) (hth : 0 < th)
    (hlen : buf.length = h * bpr) :
    ∀ fuel y i, i + 1 < (tileLoop buf bpr h th fuel y).length →
      ∃ tile, (tileLoop buf bpr h th fuel y)[i]? = some tile ∧
        tile.length = th * bpr := by
  intro fuel
  induction fuel with
  | zero =>
    intro y i hi
    exact absurd hi (by simp [tileLoop])
  | succ fuel ih =>
    intro y i hi
    by_cases hyh : y < h
    · rw [tileLoop_succ, if_pos hyh] at hi ⊢
      cases i with
      | zero =>
        refine ⟨_, List.getElem?_cons_zero, ?_⟩
        have hrest : tileLoop buf bpr h th fuel (y + th) ≠ [] := by
          intro hnil
          rw [List.length_cons, hnil] at hi
          simp at hi
        have hin : y + th < h := by
          by_contra hge
          exact hrest (tileLoop_of_le buf bpr h th fuel (y + th) (by omega))
        rw [List.length_take, List.length_drop, hlen]
        have hmin : min th (h - y) = th := min_eq_left (by omega)
        rw [hmin]
        have hsub : h * bpr - y * bpr = (h - y) * bpr := (Nat.sub_mul h y bpr).symm
        rw [hsub, Nat.mul_comm bpr th]
        exact min_eq_left (Nat.mul_le_mul_right bpr (by omega))
      | succ i =>
        rw [List.getElem?_cons_succ]
        refine ih (y + th) i ?_
        rw [List.length_cons] at hi
        omega
    · rw [tileLoop_of_le buf bpr h th (fuel + 1) y (by omega)] at hi
      exact absurd hi (by simp)

lemma tileLoop_getLast (buf : List Nat) (bpr h th : Nat) (hth : 0 < th)
    (hlen : buf.length = h * bpr) :
    ∀ fuel y l, h - y ≤ fuel * th → y < h →
      (tileLoop buf bpr h th fuel y).getLast? = some l →
      l.length = (if (h - y) % th = 0 then th else (h - y) % th) * bpr := by
  intro fuel
  induction fuel with
  | zero =>
    intro y l hy hyh
    omega
  | succ fuel ih =>
    intro y l hy hyh hlast
    rw [tileLoop_succ, if_pos hyh] at hlast
    by_cases hcase : y + th < h
    · have hfuel : 0 < fuel := by
        rcases Nat.eq_zero_or_pos fuel with h0 | h0
        · subst h0
          rw [Nat.succ_mul, Nat.zero_mul, Nat.zero_add] at hy
          omega
        · exact h0
      have hrest : tileLoop buf bpr h th fuel (y + th) ≠ [] := by
        obtain ⟨fuel', rfl⟩ := Nat.exists_eq_succ_of_ne_zero (by omega : fuel ≠ 0)
        rw [tileLoop_succ, if_pos hcase]
        simp
      obtain ⟨r, rs, hrr⟩ := List.exists_cons_of_ne_nil hrest
      rw [hrr, List.getLast?_cons_cons] at hlast
      rw [← hrr] at hlast
      have hmul : (fuel + 1) * th = fuel * th + th := Nat.succ_mul fuel th
      have := ih (y + th) l (by omega) hcase hlast
      have hmod : (h - y) % th = (h - (y + th)) % th := by
        have hsplit : h - y = (h - (y + th)) + th := by omega
        rw [hsplit, Nat.add_mod_right]
      rw [hmod]
      exact this
    · have hrest : tileLoop buf bpr h th fuel (y + th) = [] :=
        tileLoop_of_le buf bpr h th fuel (y + th) (by omega)
      rw [hrest] at hlast
      have hl : l = (buf.drop (y * bpr)).take (bpr * min th (h - y)) := by
        simp only [List.getLast?_singleton, Option.some.injEq] at hlast
        exact hlast.symm
      subst hl
      rw [List.length_take, List.length_drop, hlen]
      have hmin : min th (h - y) = h - y := min_eq_right (by omega)
      rw [hmin]
      have hsub : h * bpr - y * bpr = (h - y) * bpr := (Nat.sub_mul h y bpr).symm
      rw [hsub, Nat.mul_comm bpr (h - y), min_self]
      by_cases hmod : (h - y) % th = 0
      · rw [if_pos hmod]
        have hr : h - y = th := by
          rcases Nat.lt_or_ge (h - y) th with hlt | hge
          · rw [Nat.mod_eq_of_lt hlt] at hmod
            omega
          · omega
        rw [hr]
      · rw [if_neg hmod]
        have hlt : h - y < th := by
          rcases Nat.lt_or_ge (h - y) th with hlt | hge
          · exact hlt
          · have hr : h - y = th := by omega
            rw [hr, Nat.mod_self] at hmod
            omega
        rw [Nat.mod_eq_of_lt hlt]

/-- C1: for `tileHeight >= 1` and a well-formed `width*height*channels`-byte
buffer, concatenating the tiles of `splitBufferToTiles` in order reproduces
the buffer exactly; every tile but the last holds exactly
`tileHeight * width * channels` bytes (`tileHeight` full rows), and the last
holds `height mod tileHeight` rows, or `tileHeight` when `tileHeight`
divides `height`. -/
theorem splitBufferToTiles_roundtrip (buf : List Nat) (w h c th : Nat)
    (hlen : buf.length = w * h * c) (hth : 1 ≤ th) :
    (splitBufferToTiles buf w h c th).flatten = buf
    ∧ (∀ i (hi : i + 1 < (splitBufferToTiles buf w h c th).length),
        ((splitBufferToTiles buf w h c th).get ⟨i, Nat.lt_of_succ_lt hi⟩).length
          = th * (w * c))
    ∧ (∀ l, (splitBufferToTiles buf w h c th).getLast? = some l →
        l.length = (if h % th = 0 then th else h % th) * (w * c)) := by
  have hlen' : buf.length = h * (w * c) := by rw [hlen]; ring
  have hfuel : h - 0 ≤ h * th := by
    rw [Nat.sub_zero]
    exact Nat.le_mul_of_pos_right h hth
  refine ⟨?_, ?_, ?_⟩
  · have hflat := tileLoop_flatten buf (w * c) h th hth hlen' h 0 hfuel
    unfold splitBufferToTiles
    rw [hflat, Nat.zero_mul, List.drop_zero, Nat.sub_zero, ← hlen',
      List.take_length]
  · intro i hi
    obtain ⟨tile, hsome, hlen2⟩ :=
      tileLoop_getElem?_length buf (w * c) h th hth hlen' h 0 i hi
    have hget : (splitBufferToTiles buf w h c th)[i]? =
        some ((splitBufferToTiles buf w h c th).get ⟨i, Nat.lt_of_succ_lt hi⟩) := by
      rw [List.getElem?_eq_getElem (Nat.lt_of_succ_lt hi), List.get_eq_getElem]
    have heq : some tile =
        some ((splitBufferToTiles buf w h c th).get ⟨i, Nat.lt_of_succ_lt hi⟩) := by
      rw [← hget]
      exact hsome.symm
    rw [← Option.some.inj heq]
    exact hlen2
  · intro l hlast
    by_cases h0 : 0 < h
    · have := tileLoop_getLast buf (w * c) h th hth hlen' h 0 l
        hfuel h0 hlast
      rwa [Nat.sub_zero] at this
    · have hh : h = 0 := by omega
      subst hh
      exact absurd hlast (by simp [splitBufferToTiles, tileLoop])

/-- Witness for `splitBufferToTiles_roundtrip`: the spec's concrete scenario,
a `2x5` RGBA buffer with `tileHeight = 2`, concatenates back to the original
40-byte buffer. -/
theorem splitBufferToTiles_roundtrip_witness :
    (splitBufferToTiles (List.range 40) 2 5 4 2).flatten = List.range 40 :=
  (splitBufferToTiles_roundtrip (List.range 40) 2 5 4 2
    (by simp) (by decide)).1

lemma renderRaw_empty (raster : String → Nat → Nat → Except String RasterImage)
    (cache : List (String × TilePayload)) (req : RenderReq)
    (hl : req.latex = "") :
    renderRaw raster cache req = (Response.badRequest "Missing latex", cache, 0) := by
  unfold renderRaw
  rw [if_pos hl]

lemma renderRaw_hit (raster : String → Nat → Nat → Except String RasterImage)
    (cache : List (String × TilePayload)) (req : RenderReq) (q : TilePayload)
    (hl : ¬ req.latex = "") (hq : List.lookup (hashKey req) cache = some q) :
    renderRaw raster cache req = (Response.ok q, cache, 0) := by
  unfold renderRaw
  rw [if_neg hl, hq]

lemma renderRaw_miss_error (raster : String → Nat → Nat → Except String RasterImage)
    (cache : List (String × TilePayload)) (req : RenderReq) (e : String)
    (hl : ¬ req.latex = "") (hq : List.lookup (hashKey req) cache = none)
    (hr : raster req.latex req.fontSize req.scale = Except.error e) :
    renderRaw raster cache req = (Response.serverError e, cache, 1) := by
  unfold renderRaw
  rw [if_neg hl, hq, hr]

lemma renderRaw_miss_ok (raster : String → Nat → Nat → Except String RasterImage)
    (cache : List (String × TilePayload)) (req : RenderReq) (img : RasterImage)
    (hl : ¬ req.latex = "") (hq : List.lookup (hashKey req) cache = none)
    (hr : raster req.latex req.fontSize req.scale = Except.ok img) :
    renderRaw raster cache req =
      (Response.ok (renderPipeline img req),
       (hashKey req, renderPipeline img req) :: cache, 1) := by
  unfold renderRaw
  rw [if_neg hl, hq, hr]

/-- C3 (amended): the cache key is a deterministic function of exactly the
seven hashed fields `(latex, fontSize, scale, margin, tileHeight,
targetWidth, targetHeight)` — so identical parameter values always map to
the same key — but `scaleTo`, which selects the resize stage and hence
affects the output bytes, is not part of the key. -/
theorem hashKey_deterministic_ignores_scaleTo (r1 r2 : RenderReq)
    (h1 : r1.latex = r2.latex) (h2 : r1.fontSize = r2.fontSize)
    (h3 : r1.scale = r2.scale) (h4 : r1.margin = r2.margin)
    (h5 : r1.tileHeight = r2.tileHeight) (h6 : r1.targetWidth = r2.targetWidth)
    (h7 : r1.targetHeight = r2.targetHeight) :
    hashKey r1 = hashKey r2 := by
  unfold hashKey
  rw [h1, h2, h3, h4, h5, h6, h7]

/-- Witness for `hashKey_deterministic_ignores_scaleTo`: two requests that
differ only in `scaleTo` share the same cache key. -/
theorem hashKey_deterministic_ignores_scaleTo_witness :
    hashKey { latex := "x", scaleTo := false } =
      hashKey { latex := "x", scaleTo := true } :=
  hashKey_deterministic_ignores_scaleTo
    { latex := "x", scaleTo := false } { latex := "x", scaleTo := true }
    rfl rfl rfl rfl rfl rfl rfl

/-- C3 counterexample: two requests identical except for `scaleTo` (targets
`4x2`, scale 1) get the same cache key, yet on the same rasterizer output
(a `1x1` opaque pixel) the handler produces different payloads: the resize
branch runs only when `scaleTo` is set, so equal keys do not imply
byte-identical payloads. -/
theorem hashKey_collision_scaleTo_counterexample :
    hashKey { latex := "x", scale := 1, scaleTo := false,
              targetWidth := some 4, targetHeight := some 2 } =
      hashKey { latex := "x", scale := 1, scaleTo := true,
                targetWidth := some 4, targetHeight := some 2 } ∧
    (renderRaw rasterOne []
        { latex := "x", scale := 1, scaleTo := false,
          targetWidth := some 4, targetHeight := some 2 }).1 ≠
      (renderRaw rasterOne []
        { latex := "x", scale := 1, scaleTo := true,
          targetWidth := some 4, targetHeight := some 2 }).1 := by
  exact ⟨rfl, by decide⟩

/-- C4: when a render request succeeds with payload `p`, re-issuing the
identical request against the updated cache is a cache hit: it returns the
stored payload `p` verbatim, performs no rasterizer invocation, and leaves
the cache unchanged. -/
theorem renderRaw_idempotent_cache
    (raster : String → Nat → Nat → Except String RasterImage)
    (cache : List (String × TilePayload)) (req : RenderReq) (p : TilePayload)
    (h1 : (renderRaw raster cache req).1 = Response.ok p) :
    (renderRaw raster (renderRaw raster cache req).2.1 req).1 =
      Response.ok p ∧
    (renderRaw raster (renderRaw raster cache req).2.1 req).2.2 = 0 ∧
    (renderRaw raster (renderRaw raster cache req).2.1 req).2.1 =
      (renderRaw raster cache req).2.1 := by
  have hlat : ¬ req.latex = "" := by
    intro hl
    rw [renderRaw_empty raster cache req hl] at h1
    simp at h1
  cases hcl : List.lookup (hashKey req) cache with
  | some q =>
    have he := renderRaw_hit raster cache req q hlat hcl
    rw [he] at h1 ⊢
    have hqp : q = p := by simpa using h1
    subst hqp
    rw [renderRaw_hit raster cache req q hlat hcl]
    exact ⟨rfl, rfl, rfl⟩
  | none =>
    cases hr : raster req.latex req.fontSize req.scale with
    | error e =>
      rw [renderRaw_miss_error raster cache req e hlat hcl hr] at h1
      simp at h1
    | ok img =>
      have he := renderRaw_miss_ok raster cache req img hlat hcl hr
      rw [he] at h1 ⊢
      have hqp : renderPipeline img req = p := by simpa using h1
      have hl2 : List.lookup (hashKey req)
          ((hashKey req, renderPipeline img req) :: cache) =
            some (renderPipeline img req) := by
        simp [List.lookup]
      rw [show ((Response.ok (renderPipeline img req),
          (hashKey req, renderPipeline img req) :: cache, 1)).2.1 =
            (hashKey req, renderPipeline img req) :: cache from rfl,
        renderRaw_hit raster _ req _ hlat hl2, hqp]
      exact ⟨rfl, rfl, rfl⟩

/-- Witness for `renderRaw_idempotent_cache`: the second identical request
on the stub rasterizer returns the cached payload with zero rasterizer
invocations. -/
theorem renderRaw_idempotent_cache_witness :
    (renderRaw rasterOne ((renderRaw rasterOne [] { latex := "x" }).2.1)
        { latex := "x" }).1 =
      Response.ok (renderPipeline imgOne { latex := "x" }) ∧
    (renderRaw rasterOne ((renderRaw rasterOne [] { latex := "x" }).2.1)
        { latex := "x" }).2.2 = 0 ∧
    (renderRaw rasterOne ((renderRaw rasterOne [] { latex := "x" }).2.1)
        { latex := "x" }).2.1 =
      (renderRaw rasterOne [] { latex := "x" }).2.1 :=
  renderRaw_idempotent_cache rasterOne [] { latex := "x" }
    (renderPipeline imgOne { latex := "x" }) rfl

/-- C5 counterexample: the spec's concrete scenario — `4x4` source, tight
box `{1,1,2,2}`, margin 1 — should by the claim be extracted as
`{0,0,4,4}`; the handler instead extracts the tight box `{1,1,2,2}`
unchanged (the `margin` parameter is never applied to the crop). -/
theorem crop_ignores_margin_counterexample :
    (renderRaw raster44 [] { latex := "x", margin := 1, scale := 1 }).1 =
      Response.ok (renderPipeline img44 { latex := "x", margin := 1, scale := 1 }) ∧
    (renderPipeline img44 { latex := "x", margin := 1, scale := 1 }).crop =
      ⟨1, 1, 2, 2⟩ ∧
    (⟨1, 1, 2, 2⟩ : BBox) ≠ ⟨0, 0, 4, 4⟩ := by
  refine ⟨rfl, by decide, by decide⟩

/-- C5 (amended): the `margin` request parameter has no effect on the
pipeline output — it only enters the cache key — and the rectangle actually
extracted is the tight bounding box (full image on fallback): in the `4x4`
concrete scenario the crop is `{1,1,2,2}`. -/
theorem renderPipeline_ignores_margin :
    (∀ (img : RasterImage) (req : RenderReq) (m : Nat),
      renderPipeline img { req with margin := m } = renderPipeline img req) ∧
    (∀ (raster : String → Nat → Nat → Except String RasterImage)
        (req : RenderReq) (m1 m2 : Nat),
      (renderRaw raster [] { req with margin := m1 }).1 =
        (renderRaw raster [] { req with margin := m2 }).1) ∧
    handlerBBox img44 = ⟨1, 1, 2, 2⟩ := by
  refine ⟨fun img req m => rfl, ?_, by decide⟩
  intro raster req m1 m2
  by_cases hl : req.latex = ""
  · rw [renderRaw_empty raster [] { req with margin := m1 } hl,
      renderRaw_empty raster [] { req with margin := m2 } hl]
  · cases hr : raster req.latex req.fontSize req.scale with
    | error e =>
      rw [renderRaw_miss_error raster [] { req with margin := m1 } e hl rfl hr,
        renderRaw_miss_error raster [] { req with margin := m2 } e hl rfl hr]
    | ok img =>
      rw [renderRaw_miss_ok raster [] { req with margin := m1 } img hl rfl hr,
        renderRaw_miss_ok raster [] { req with margin := m2 } img hl rfl hr]
      rfl

/-- C6 counterexample: `scaleTo = true`, targets `4x2`, scale 1, on a `1x1`
opaque raster: the returned payload is `2x2` (the tight crop of the
contained resize), not the requested `4x2`. -/
theorem resize_output_not_target_counterexample :
    (renderRaw rasterOne []
        { latex := "x", scale := 1, scaleTo := true,
          targetWidth := some 4, targetHeight := some 2 }).1 =
      Response.ok (renderPipeline imgOne
        { latex := "x", scale := 1, scaleTo := true,
          targetWidth := some 4, targetHeight := some 2 }) ∧
    (renderPipeline imgOne
        { latex := "x", scale := 1, scaleTo := true,
          targetWidth := some 4, targetHeight := some 2 }).width = 2 ∧
    (renderPipeline imgOne
        { latex := "x", scale := 1, scaleTo := true,
          targetWidth := some 4, targetHeight := some 2 }).height = 2 ∧
    ¬ ((renderPipeline imgOne
        { latex := "x", scale := 1, scaleTo := true,
          targetWidth := some 4, targetHeight := some 2 }).width = 4 ∧
       (renderPipeline imgOne
        { latex := "x", scale := 1, scaleTo := true,
          targetWidth := some 4, targetHeight := some 2 }).height = 2) := by
  refine ⟨rfl, by decide, by decide, by decide⟩

/-- C6 (amended): when `scaleTo` is false the resize stage is skipped and
the payload does not depend on the targets; when the resize runs it does so
before the tight crop and with targets multiplied by `scale`, so the final
payload carries the cropped content's dimensions (here `2x2`), not
`targetWidth x targetHeight`. -/
theorem resize_passthrough_and_crop :
    (∀ (img : RasterImage) (req : RenderReq), req.scaleTo = false →
      renderPipeline img req =
        renderPipeline img
          { req with targetWidth := none, targetHeight := none }) ∧
    ((renderPipeline imgOne
        { latex := "x", scale := 1, scaleTo := true,
          targetWidth := some 4, targetHeight := some 2 }).width,
     (renderPipeline imgOne
        { latex := "x", scale := 1, scaleTo := true,
          targetWidth := some 4, targetHeight := some 2 }).height) =
      (2, 2) := by
  constructor
  · intro img req hs
    unfold renderPipeline
    simp only [hs, Bool.false_and, Bool.false_eq_true, if_false]
  · decide

/-- Witness for `resize_passthrough_and_crop`: with `scaleTo` unset, a
supplied target width does not change the payload. -/
theorem resize_passthrough_and_crop_witness :
    renderPipeline imgOne { latex := "x", targetWidth := some 9 } =
      renderPipeline imgOne
        { latex := "x", targetWidth := none, targetHeight := none } :=
  resize_passthrough_and_crop.1 imgOne
    { latex := "x", targetWidth := some 9 } rfl

/-- C7: for any raster image with positive dimensions, the rectangle the
handler hands to extraction — the detected bounding box, or the full-image
fallback when detection returns `null` — lies fully inside the image and
has positive width and height. -/
theorem handlerBBox_in_bounds (img : RasterImage) (hw : 0 < img.width)
    (hh : 0 < img.height) :
    0 ≤ (handlerBBox img).left ∧ 0 ≤ (handlerBBox img).top ∧
    1 ≤ (handlerBBox img).width ∧ 1 ≤ (handlerBBox img).height ∧
    (handlerBBox img).left + (handlerBBox img).width ≤ (img.width : Int) ∧
    (handlerBBox img).top + (handlerBBox img).height ≤ (img.height : Int) := by
  unfold handlerBBox
  cases hb : findBBox img.pixels img.width img.height img.channels with
  | none =>
    simp only [Option.getD_none]
    refine ⟨le_refl 0, le_refl 0, ?_, ?_, ?_, ?_⟩ <;> simp <;> omega
  | some b =>
    simp only [Option.getD_some]
    obtain ⟨xl, yl, hxl, hyl, hll, hel⟩ := findBBox_some_left_witness hb
    obtain ⟨xr, yr, hxr, hyr, hlr, her⟩ := findBBox_some_right_witness hb
    obtain ⟨xt, yt, hxt, hyt, hlt, het⟩ := findBBox_some_top_witness hb
    obtain ⟨xb, yb, hxb, hyb, hlb, heb⟩ := findBBox_some_bottom_witness hb
    obtain ⟨i1, i2, -, -⟩ := findBBox_some_bounds hb hxl hyl hll
    obtain ⟨-, -, i3, i4⟩ := findBBox_some_bounds hb hxt hyt hlt
    refine ⟨?_, ?_, ?_, ?_, ?_, ?_⟩ <;> omega

/-- Witness for `handlerBBox_in_bounds`: concrete bounds check on the `4x4`
two-pixel scenario image. -/
theorem handlerBBox_in_bounds_witness :
    0 ≤ (handlerBBox img44).left ∧ 0 ≤ (handlerBBox img44).top ∧
    1 ≤ (handlerBBox img44).width ∧ 1 ≤ (handlerBBox img44).height ∧
    (handlerBBox img44).left + (handlerBBox img44).width ≤ (img44.width : Int) ∧
    (handlerBBox img44).top + (handlerBBox img44).height ≤ (img44.height : Int) :=
  handlerBBox_in_bounds img44 (by decide) (by decide)

/-- C9 counterexample: a whitespace-only markup string (empty after
trimming) is not rejected: the handler rasterizes it (one rasterizer
invocation) and returns a payload instead of an error. -/
theorem whitespace_latex_not_rejected_counterexample :
    (renderRaw rasterOne [] { latex := " " }).1 =
      Response.ok (renderPipeline imgOne { latex := " " }) ∧
    (renderRaw rasterOne [] { latex := " " }).2.2 = 1 := ⟨rfl, rfl⟩

/-- C9 (amended): the only up-front validation is the JS-falsy check
`if (!latex)`: a request is answered with the 400 error exactly when its
markup is the empty string, and only then is the request finished with no
rasterization work and no cache change; whitespace-only markup and
non-positive numeric parameters pass through unchecked. -/
theorem renderRaw_validation
    (raster : String → Nat → Nat → Except String RasterImage)
    (cache : List (String × TilePayload)) (req : RenderReq) :
    ((renderRaw raster cache req).1 = Response.badRequest "Missing latex" ↔
      req.latex = "") ∧
    (req.latex = "" →
      (renderRaw raster cache req).2.2 = 0 ∧
      (renderRaw raster cache req).2.1 = cache) := by
  constructor
  · constructor
    · intro hbad
      by_contra hl
      cases hcl : List.lookup (hashKey req) cache with
      | some q =>
        rw [renderRaw_hit raster cache req q hl hcl] at hbad
        simp at hbad
      | none =>
        cases hr : raster req.latex req.fontSize req.scale with
        | error e =>
          rw [renderRaw_miss_error raster cache req e hl hcl hr] at hbad
          simp at hbad
        | ok img =>
          rw [renderRaw_miss_ok raster cache req img hl hcl hr] at hbad
          simp at hbad
    · intro hl
      rw [renderRaw_empty raster cache req hl]
  · intro hl
    rw [renderRaw_empty raster cache req hl]
    exact ⟨rfl, rfl⟩

/-- Witness for `renderRaw_validation`: an empty-markup request performs no
rasterizer invocation. -/
theorem renderRaw_validation_witness :
    (renderRaw rasterOne [] { latex := "" }).2.2 = 0 ∧
    (renderRaw rasterOne [] { latex := "" }).2.1 = [] :=
  (renderRaw_validation rasterOne [] { latex := "" }).2 rfl

/-- C10: the cache is written only on the success path, after the payload
has been fully computed: a 400 or 500 response leaves the cache exactly as
it was, and a payload response either was a cache hit (cache unchanged) or
appends precisely the returned payload under the request's key. -/
theorem renderRaw_cache_integrity
    (raster : String → Nat → Nat → Except String RasterImage)
    (cache : List (String × TilePayload)) (req : RenderReq) :
    (∀ m, (renderRaw raster cache req).1 = Response.badRequest m →
      (renderRaw raster cache req).2.1 = cache) ∧
    (∀ e, (renderRaw raster cache req).1 = Response.serverError e →
      (renderRaw raster cache req).2.1 = cache) ∧
    (∀ p, (renderRaw raster cache req).1 = Response.ok p →
      (renderRaw raster cache req).2.1 = cache ∨
      (renderRaw raster cache req).2.1 = (hashKey req, p) :: cache) := by
  by_cases hl : req.latex = ""
  · rw [renderRaw_empty raster cache req hl]
    exact ⟨fun m _ => rfl, fun e he => by simp at he, fun p hp => by simp at hp⟩
  · cases hcl : List.lookup (hashKey req) cache with
    | some q =>
      rw [renderRaw_hit raster cache req q hl hcl]
      exact ⟨fun m hm => by simp at hm, fun e he => by simp at he,
        fun p _ => Or.inl rfl⟩
    | none =>
      cases hr : raster req.latex req.fontSize req.scale with
      | error e0 =>
        rw [renderRaw_miss_error raster cache req e0 hl hcl hr]
        exact ⟨fun m hm => by simp at hm, fun e _ => rfl,
          fun p hp => by simp at hp⟩
      | ok img =>
        rw [renderRaw_miss_ok raster cache req img hl hcl hr]
        refine ⟨fun m hm => by simp at hm, fun e he => by simp at he,
          fun p hp => Or.inr ?_⟩
        have hqp : renderPipeline img req = p := by simpa using hp
        rw [← hqp]

/-- Witness for `renderRaw_cache_integrity`: a failing rasterization leaves
the (empty) cache empty. -/
theorem renderRaw_cache_integrity_witness :
    (renderRaw rasterFail [] { latex := "x" }).2.1 =
      ([] : List (String × TilePayload)) :=
  (renderRaw_cache_integrity rasterFail [] { latex := "x" }).2.1 "boom" rfl
